import Mathlib

/-!
Verification development for the receipt-tracker backend
(`backend/server.py`).  The receipt-scan pipeline of `scan_receipt`
(format sniffing, resize/recompress policy, Markdown-fence stripping,
tolerant JSON parsing into `ReceiptScanResult`) is embedded shallowly:

* bytes are `List Nat`, texts are `List Char` (converted from `String`
  at the boundary);
* Python `float` values are modelled as exact rationals `ℚ`; where a
  claim genuinely depends on IEEE-754 binary64 rounding (the resize
  arithmetic `min(1500/w, 1500/h)`), rounding to 53-bit precision with
  round-half-to-even is modelled exactly by `roundD` (non-finite values
  and subnormals play no role for the inputs considered);
* Python's `str.split`, `in`, `str.strip`, `json.loads`, `float(...)`
  and the pydantic validation of `LineItem` / `ReceiptScanResult` are
  embedded by the executable functions below, each following the
  behaviour of the corresponding library call on the fragment the
  server exercises;
* `datetime.now().strftime("%Y-%m-%d")` is passed in as the `today`
  parameter;
* every failure path of the parsing stage of `scan_receipt`
  (`json.JSONDecodeError` as well as coercion/validation errors caught
  by the generic handler) raises an HTTP 500 and is the spec's
  `MalformedResponse` error kind, modelled by `ParseError.malformedResponse`.
-/

set_option maxRecDepth 8000

/-- Whitespace characters recognised by Python's `str.strip()` (ASCII part). -/
def pyIsSpace (c : Char) : Bool :=
  c = ' ' || c = '\t' || c = '\n' || c = '\r' || c = '\x0b' || c = '\x0c'

/-- Drop leading Python whitespace (`lstrip`). -/
def stripL (s : List Char) : List Char := s.dropWhile pyIsSpace

/-- Drop trailing Python whitespace (`rstrip`). -/
def stripR (s : List Char) : List Char := (stripL s.reverse).reverse

/-- Python `str.strip()`: drop whitespace at both ends. -/
def pyStrip (s : List Char) : List Char := stripR (stripL s)

/-- Boolean "is a list-prefix of" test, used to model occurrence of a
substring at the head of a character list. -/
def isPre : List Char → List Char → Bool
  | [], _ => true
  | _ :: _, [] => false
  | a :: p, b :: s => a = b && isPre p s

/-- Python's substring containment test `sep in s` (for non-empty `sep`). -/
def containsSub (sep : List Char) : List Char → Bool
  | [] => sep.isEmpty
  | s@(_ :: rest) => isPre sep s || containsSub sep rest

/-- Worker for `splitOnL` on a non-empty separator `a :: t`,
accumulating the current chunk reversed.  Mirrors Python's
`str.split(sep)`: non-overlapping occurrences scanned left to right.
The fuel argument (structural, so that the kernel can evaluate the
function) is an upper bound on the number of consumed characters; it
never runs out when initialised with the input length. -/
def splitAux (a : Char) (t : List Char) : Nat → List Char → List Char → List (List Char)
  | _, [], acc => [acc.reverse]
  | 0, s, acc => [acc.reverse ++ s]
  | fuel + 1, c :: rest, acc =>
    if isPre (a :: t) (c :: rest) then
      acc.reverse :: splitAux a t fuel (rest.drop t.length) []
    else
      splitAux a t fuel rest (c :: acc)

/-- Python `s.split(sep)` for non-empty `sep`, on character lists
(the server only ever splits on the fence markers, which are non-empty). -/
def splitOnL (sep s : List Char) : List (List Char) :=
  match sep with
  | [] => [s]
  | a :: t => splitAux a t s.length s []

/-- JSON values as produced by Python's `json.loads`.  Numbers are kept
as exact rationals (Python ints are exact; Python floats are modelled
as the exact decimal value of the literal).  Objects keep all key/value
pairs in source order; lookups take the last binding, matching the
behaviour of building a Python `dict` with duplicate keys. -/
inductive Json where
  | null : Json
  | bool : Bool → Json
  | num : ℚ → Json
  | str : String → Json
  | arr : List Json → Json
  | obj : List (String × Json) → Json

/-- JSON insignificant whitespace (RFC 8259, as accepted by `json.loads`). -/
def jsonWs (c : Char) : Bool :=
  c = ' ' || c = '\t' || c = '\n' || c = '\r'

/-- Skip insignificant JSON whitespace. -/
def skipWs (s : List Char) : List Char := s.dropWhile jsonWs

/-- Numeric value of a decimal digit character. -/
def digVal (c : Char) : Nat := c.toNat - 48

/-- Natural number denoted by a list of decimal digit characters. -/
def natOfDigits (ds : List Char) : Nat :=
  ds.foldl (fun n c => n * 10 + digVal c) 0

/-- Value of a hexadecimal digit character, if it is one. -/
def hexVal (c : Char) : Option Nat :=
  if '0' ≤ c ∧ c ≤ '9' then some (c.toNat - 48)
  else if 'a' ≤ c ∧ c ≤ 'f' then some (c.toNat - 87)
  else if 'A' ≤ c ∧ c ≤ 'F' then some (c.toNat - 55)
  else none

/-- Parse a strict JSON number (`-?int frac? exp?` with no leading zeros,
as accepted by `json.loads`) from the head of the input, returning its
exact rational value and the unconsumed rest. -/
def parseNum (s : List Char) : Option (ℚ × List Char) :=
  let (neg, s1) := match s with
    | '-' :: r => (true, r)
    | _ => (false, s)
  let ds := s1.takeWhile Char.isDigit
  let s2 := s1.dropWhile Char.isDigit
  match ds with
  | [] => none
  | '0' :: _ :: _ => none
  | _ =>
    let (fs, s4) := match s2 with
      | '.' :: s3 =>
        (s3.takeWhile Char.isDigit, s3.dropWhile Char.isDigit)
      | _ => ([], s2)
    if s2 ≠ [] ∧ s2.headD ' ' = '.' ∧ fs = [] then none else
    let (hasExp, eneg, es, s6) := match s4 with
      | 'e' :: '-' :: s5 => (true, true, s5.takeWhile Char.isDigit, s5.dropWhile Char.isDigit)
      | 'e' :: '+' :: s5 => (true, false, s5.takeWhile Char.isDigit, s5.dropWhile Char.isDigit)
      | 'e' :: s5 => (true, false, s5.takeWhile Char.isDigit, s5.dropWhile Char.isDigit)
      | 'E' :: '-' :: s5 => (true, true, s5.takeWhile Char.isDigit, s5.dropWhile Char.isDigit)
      | 'E' :: '+' :: s5 => (true, false, s5.takeWhile Char.isDigit, s5.dropWhile Char.isDigit)
      | 'E' :: s5 => (true, false, s5.takeWhile Char.isDigit, s5.dropWhile Char.isDigit)
      | _ => (false, false, [], s4)
    if hasExp ∧ es = [] then none else
    let mant : ℚ :=
      ((natOfDigits ds * 10 ^ fs.length + natOfDigits fs : ℕ) : ℚ) / (10 ^ fs.length : ℕ)
    let sgned : ℚ := if neg then -mant else mant
    let e : ℤ := if eneg then -(natOfDigits es : ℤ) else (natOfDigits es : ℤ)
    some (sgned * (10 : ℚ) ^ e, s6)

/-- Parse the body of a JSON string after the opening quote: the decoded
characters and the rest after the closing quote.  Escapes are decoded as
`json.loads` does; unescaped control characters are rejected (strict
mode).  `\uXXXX` maps through `Char.ofNat` (lone surrogates, which Lean
`Char` cannot carry, are outside the model). -/
def parseStrBody : Nat → List Char → Option (List Char × List Char)
  | 0, _ => none
  | _, [] => none
  | fuel + 1, c :: rest =>
    if c = '"' then some ([], rest)
    else if c = '\\' then
      match rest with
      | 'n' :: r => (parseStrBody fuel r).map (fun p => ('\n' :: p.1, p.2))
      | 't' :: r => (parseStrBody fuel r).map (fun p => ('\t' :: p.1, p.2))
      | 'r' :: r => (parseStrBody fuel r).map (fun p => ('\r' :: p.1, p.2))
      | 'b' :: r => (parseStrBody fuel r).map (fun p => ('\x08' :: p.1, p.2))
      | 'f' :: r => (parseStrBody fuel r).map (fun p => ('\x0c' :: p.1, p.2))
      | '/' :: r => (parseStrBody fuel r).map (fun p => ('/' :: p.1, p.2))
      | '\\' :: r => (parseStrBody fuel r).map (fun p => ('\\' :: p.1, p.2))
      | '"' :: r => (parseStrBody fuel r).map (fun p => ('"' :: p.1, p.2))
      | 'u' :: h1 :: h2 :: h3 :: h4 :: r =>
        match hexVal h1, hexVal h2, hexVal h3, hexVal h4 with
        | some a, some b, some c, some d =>
          (parseStrBody fuel r).map
            (fun p => (Char.ofNat (((a * 16 + b) * 16 + c) * 16 + d) :: p.1, p.2))
        | _, _, _, _ => none
      | _ => none
    else if c.toNat < 32 then none
    else (parseStrBody fuel rest).map (fun p => (c :: p.1, p.2))

mutual

/-- Parse one JSON value from the head of the input (after optional
whitespace), as `json.loads` would. -/
def parseVal : Nat → List Char → Option (Json × List Char)
  | 0, _ => none
  | fuel + 1, s =>
    match skipWs s with
    | '{' :: r =>
      match skipWs r with
      | '}' :: r2 => some (.obj [], r2)
      | r2 => (parseMembers fuel r2 []).map (fun p => (.obj p.1, p.2))
    | '[' :: r =>
      match skipWs r with
      | ']' :: r2 => some (.arr [], r2)
      | r2 => (parseElems fuel r2 []).map (fun p => (.arr p.1, p.2))
    | '"' :: r =>
      (parseStrBody (r.length + 1) r).map (fun p => (.str (String.mk p.1), p.2))
    | 't' :: 'r' :: 'u' :: 'e' :: r => some (.bool true, r)
    | 'f' :: 'a' :: 'l' :: 's' :: 'e' :: r => some (.bool false, r)
    | 'n' :: 'u' :: 'l' :: 'l' :: r => some (.null, r)
    | s1 => (parseNum s1).map (fun p => (.num p.1, p.2))

/-- Parse the members of a JSON object after the opening brace
(positioned at the first key), accumulating parsed pairs in order. -/
def parseMembers : Nat → List Char → List (String × Json) → Option (List (String × Json) × List Char)
  | 0, _, _ => none
  | fuel + 1, s, acc =>
    match skipWs s with
    | '"' :: r =>
      match parseStrBody (r.length + 1) r with
      | some (k, r2) =>
        match skipWs r2 with
        | ':' :: r3 =>
          match parseVal fuel r3 with
          | some (v, r4) =>
            match skipWs r4 with
            | ',' :: r5 => parseMembers fuel r5 (acc ++ [(String.mk k, v)])
            | '}' :: r5 => some (acc ++ [(String.mk k, v)], r5)
            | _ => none
          | none => none
        | _ => none
      | none => none
    | _ => none

/-- Parse the elements of a JSON array after the opening bracket
(positioned at the first element). -/
def parseElems : Nat → List Char → List Json → Option (List Json × List Char)
  | 0, _, _ => none
  | fuel + 1, s, acc =>
    match parseVal fuel s with
    | some (v, r) =>
      match skipWs r with
      | ',' :: r2 => parseElems fuel r2 (acc ++ [v])
      | ']' :: r2 => some (acc ++ [v], r2)
      | _ => none
    | none => none

end

/-- Python's `json.loads`: parse exactly one JSON value with optional
surrounding whitespace; anything else raises `json.JSONDecodeError`
(modelled as `none`).  The fuel is an upper bound on parser steps, each
of which consumes input. -/
def jsonDecode (s : List Char) : Option Json :=
  match parseVal (2 * s.length + 2) s with
  | some (j, rest) => if (skipWs rest).isEmpty then some j else none
  | none => none

/-- Python's `float(str)` on a decimal literal: surrounding whitespace
is stripped, an optional sign is followed by `digits`, `digits.digits`,
`digits.` or `.digits`, with an optional exponent.  The exact rational
value is returned.  (`inf`/`nan` and PEP-515 underscores are outside the
model; no claim touches them.) -/
def pyFloatStr (s : List Char) : Option ℚ :=
  let t := pyStrip s
  let (neg, t1) := match t with
    | '+' :: r => (false, r)
    | '-' :: r => (true, r)
    | _ => (false, t)
  let ds := t1.takeWhile Char.isDigit
  let t2 := t1.dropWhile Char.isDigit
  let (fs, t4) := match t2 with
    | '.' :: t3 => (t3.takeWhile Char.isDigit, t3.dropWhile Char.isDigit)
    | _ => ([], t2)
  if ds = [] ∧ fs = [] then none else
  let (hasExp, eneg, es, t6) := match t4 with
    | 'e' :: '-' :: t5 => (true, true, t5.takeWhile Char.isDigit, t5.dropWhile Char.isDigit)
    | 'e' :: '+' :: t5 => (true, false, t5.takeWhile Char.isDigit, t5.dropWhile Char.isDigit)
    | 'e' :: t5 => (true, false, t5.takeWhile Char.isDigit, t5.dropWhile Char.isDigit)
    | 'E' :: '-' :: t5 => (true, true, t5.takeWhile Char.isDigit, t5.dropWhile Char.isDigit)
    | 'E' :: '+' :: t5 => (true, false, t5.takeWhile Char.isDigit, t5.dropWhile Char.isDigit)
    | 'E' :: t5 => (true, false, t5.takeWhile Char.isDigit, t5.dropWhile Char.isDigit)
    | _ => (false, false, [], t4)
  if hasExp ∧ es = [] then none else
  if t6 ≠ [] then none else
  let mant : ℚ :=
    ((natOfDigits ds * 10 ^ fs.length + natOfDigits fs : ℕ) : ℚ) / (10 ^ fs.length : ℕ)
  let sgned : ℚ := if neg then -mant else mant
  let e : ℤ := if eneg then -(natOfDigits es : ℤ) else (natOfDigits es : ℤ)
  some (sgned * (10 : ℚ) ^ e)

/-- Error kind of the response-parsing stage of `scan_receipt`.  Both
failure paths — `json.JSONDecodeError` (HTTP 500 "Failed to parse AI
response") and coercion/pydantic-validation errors caught by the generic
handler (HTTP 500 "Failed to scan receipt: …") — are parse-stage
failures; the spec's name for this error kind is `MalformedResponse`. -/
inductive ParseError where
  | malformedResponse : ParseError
deriving DecidableEq, Repr

/-- Pydantic model `LineItem` (server.py lines 66–70): `description` is
required text; `quantity` defaults to `1`, `unit_price` and `total` to
`None`.  Numeric fields hold exact rationals in place of Python floats. -/
structure LineItem where
  description : String
  quantity : Option ℚ
  unit_price : Option ℚ
  total : Option ℚ
deriving DecidableEq, Repr

/-- Pydantic model `ReceiptScanResult` (server.py lines 117–126), the
extraction result returned by `scan_receipt`. -/
structure ReceiptScanResult where
  vendor : String
  date : String
  amount : ℚ
  currency : String
  category : String
  payment_method : Option String
  receipt_number : Option String
  line_items : List LineItem
  confidence_score : ℚ
deriving DecidableEq, Repr

/-- The fixed 10-label expense taxonomy `CATEGORIES`
(server.py lines 275–286). -/
def CATEGORIES : List String :=
  ["Meals & Dining", "Travel", "Office Supplies", "Equipment",
   "Software & Subscriptions", "Utilities", "Marketing",
   "Professional Services", "Transportation", "Other"]

/-- Python `dict.get(k)` on a parsed JSON object: the last binding of
the key wins, matching `dict` construction from duplicate keys. -/
def dictGet (k : String) (kvs : List (String × Json)) : Option Json :=
  kvs.foldl (fun acc p => if p.1 = k then some p.2 else acc) none

/-- Python `dict.get(k, default)`. -/
def fieldD (kvs : List (String × Json)) (k : String) (d : Json) : Json :=
  (dictGet k kvs).getD d

/-- Pydantic `str` validation: accepts exactly strings (no coercion from
numbers, booleans or null in pydantic v2 lax mode). -/
def asStr : Json → Except ParseError String
  | .str s => .ok s
  | _ => .error .malformedResponse

/-- Pydantic `Optional[str]` validation: `None` or a string. -/
def asOptStr : Json → Except ParseError (Option String)
  | .null => .ok none
  | .str s => .ok (some s)
  | _ => .error .malformedResponse

/-- Python's `float(x)` builtin as applied to a JSON value: numbers pass
through, booleans coerce to 0/1, numeric strings are parsed, and
anything else (`None`, lists, dicts, non-numeric strings) raises
(`TypeError`/`ValueError`, caught by the endpoint's generic handler). -/
def pyFloat : Json → Except ParseError ℚ
  | .num q => .ok q
  | .bool b => .ok (if b then 1 else 0)
  | .str s =>
    match pyFloatStr s.data with
    | some q => .ok q
    | none => .error .malformedResponse
  | _ => .error .malformedResponse

/-- Pydantic `Optional[float]` validation (v2 lax mode): `None` passes,
numbers pass, numeric strings coerce; booleans and containers are
rejected. -/
def asOptFloat : Json → Except ParseError (Option ℚ)
  | .null => .ok none
  | .num q => .ok (some q)
  | .str s =>
    match pyFloatStr s.data with
    | some q => .ok (some q)
    | none => .error .malformedResponse
  | _ => .error .malformedResponse

/-- `LineItem(**item)`: `item` must be a mapping; `description` is
required and must be a string; the optional numeric fields default as in
the model (`quantity = 1`) and validate via `asOptFloat`.  Keys outside
the model are ignored (pydantic v2 default `extra="ignore"`). -/
def parseItem : Json → Except ParseError LineItem
  | .obj kvs => do
    let d ← match dictGet "description" kvs with
      | some v => asStr v
      | none => .error .malformedResponse
    let q ← match dictGet "quantity" kvs with
      | some v => asOptFloat v
      | none => .ok (some 1)
    let u ← match dictGet "unit_price" kvs with
      | some v => asOptFloat v
      | none => .ok none
    let t ← match dictGet "total" kvs with
      | some v => asOptFloat v
      | none => .ok none
    .ok ⟨d, q, u, t⟩
  | _ => .error .malformedResponse

/-- The comprehension `[LineItem(**item) for item in …]`: items are
validated in order and the first failure aborts the whole construction
(no partial recovery). -/
def parseItems : List Json → Except ParseError (List LineItem)
  | [] => .ok []
  | j :: rest => do
    let li ← parseItem j
    let lis ← parseItems rest
    .ok (li :: lis)

/-- Extraction of the `vendor` field with its default (server.py line 423). -/
def getVendor (kvs : List (String × Json)) : Except ParseError String :=
  asStr (fieldD kvs "vendor" (.str "Unknown"))

/-- Extraction of the `date` field; the default is the current date
string `today` (server.py line 424). -/
def getDate (today : String) (kvs : List (String × Json)) : Except ParseError String :=
  asStr (fieldD kvs "date" (.str today))

/-- Extraction of `amount`: `float(result.get("amount", 0))`
(server.py line 425). -/
def getAmount (kvs : List (String × Json)) : Except ParseError ℚ :=
  pyFloat (fieldD kvs "amount" (.num 0))

/-- Extraction of `currency` with default `"USD"` (server.py line 426). -/
def getCurrency (kvs : List (String × Json)) : Except ParseError String :=
  asStr (fieldD kvs "currency" (.str "USD"))

/-- Extraction of `category` with default `"Other"` (server.py line 427).
Note the raw text is used as-is: the endpoint performs no taxonomy
normalization. -/
def getCategory (kvs : List (String × Json)) : Except ParseError String :=
  asStr (fieldD kvs "category" (.str "Other"))

/-- Extraction of `payment_method`: `result.get(...)` defaults to
`None` (server.py line 428). -/
def getPayment (kvs : List (String × Json)) : Except ParseError (Option String) :=
  asOptStr (fieldD kvs "payment_method" .null)

/-- Extraction of `receipt_number` (server.py line 429). -/
def getReceiptNo (kvs : List (String × Json)) : Except ParseError (Option String) :=
  asOptStr (fieldD kvs "receipt_number" .null)

/-- Extraction of `line_items`: the value (default `[]`) must be a list
and each element a valid `LineItem` (server.py line 430).  A non-list
value makes the comprehension raise. -/
def getItems (kvs : List (String × Json)) : Except ParseError (List LineItem) :=
  match fieldD kvs "line_items" (.arr []) with
  | .arr xs => parseItems xs
  | _ => .error .malformedResponse

/-- Extraction of `confidence_score`:
`float(result.get("confidence_score", 0.5))` (server.py line 431).
No clamping is applied anywhere. -/
def getConfidence (kvs : List (String × Json)) : Except ParseError ℚ :=
  pyFloat (fieldD kvs "confidence_score" (.num (1 / 2)))

/-- Construction of `ReceiptScanResult` from the decoded JSON value
(server.py lines 422–432).  A non-object value makes `result.get`
raise `AttributeError` (caught by the generic handler). -/
def buildResult (today : String) : Json → Except ParseError ReceiptScanResult
  | .obj kvs => do
    let v ← getVendor kvs
    let dt ← getDate today kvs
    let a ← getAmount kvs
    let c ← getCurrency kvs
    let cat ← getCategory kvs
    let pm ← getPayment kvs
    let rn ← getReceiptNo kvs
    let lis ← getItems kvs
    let conf ← getConfidence kvs
    .ok ⟨v, dt, a, c, cat, pm, rn, lis, conf⟩
  | _ => .error .malformedResponse

/-- The Markdown fence marker `"```json"`. -/
def fenceJson : List Char := "```json".data

/-- The Markdown fence marker "```". -/
def fence3 : List Char := "```".data

/-- Fence stripping of the raw model output (server.py lines 414–418):
`split("```json")[1].split("```")[0]` when `"```json"` occurs, else
`split("```")[1].split("```")[0]` when "```" occurs, else the raw
text unchanged. -/
def stripFence (s : List Char) : List Char :=
  if containsSub fenceJson s then
    (splitOnL fence3 ((splitOnL fenceJson s).getD 1 [])).getD 0 []
  else if containsSub fence3 s then
    (splitOnL fence3 ((splitOnL fence3 s).getD 1 [])).getD 0 []
  else s

/-- The tolerant response parser of `scan_receipt` (server.py lines
414–432): strip fencing, `json.loads(text.strip())`, then build the
`ReceiptScanResult`.  `today` stands for
`datetime.now().strftime("%Y-%m-%d")`. -/
def parseTextL (today : String) (s : List Char) : Except ParseError ReceiptScanResult :=
  match jsonDecode (pyStrip (stripFence s)) with
  | some j => buildResult today j
  | none => .error .malformedResponse

/-- `parseTextL` on Lean strings. -/
def parseTextStr (today raw : String) : Except ParseError ReceiptScanResult :=
  parseTextL today raw.data

/-- Error kinds of the image-normalization stage: PDF rejection
(HTTP 400, the spec's `UnsupportedFormat`) and PIL decode failure
(HTTP 400, the spec's `DecodeError`). -/
inductive ImageError where
  | unsupportedFormat : ImageError
  | decodeError : ImageError
deriving DecidableEq, Repr

/-- The PNG signature `\x89PNG\r\n\x1a\n`. -/
def pngSig : List Nat := [0x89, 0x50, 0x4e, 0x47, 0x0d, 0x0a, 0x1a, 0x0a]

/-- Byte-signature format sniffing (server.py lines 300–309): default
`image/jpeg`, overridden by the PNG / JPEG / WEBP / PDF signatures.
The client-supplied content type is never consulted. -/
def detectType (content : List Nat) : String :=
  if content.take 8 = pngSig then "image/png"
  else if content.take 2 = [0xff, 0xd8] then "image/jpeg"
  else if content.take 4 = [0x52, 0x49, 0x46, 0x46] ∧
          (content.drop 8).take 4 = [0x57, 0x45, 0x42, 0x50] then "image/webp"
  else if content.take 4 = [0x25, 0x50, 0x44, 0x46] then "application/pdf"
  else "image/jpeg"

/-- The PDF gate (server.py lines 312–313): a detected PDF is rejected
with HTTP 400 before any decoding. -/
def checkFormat (content : List Nat) : Except ImageError String :=
  if detectType content = "application/pdf" then .error .unsupportedFormat
  else .ok (detectType content)

/-- Fuel-driven binary logarithm (⌊log₂ n⌋ for n ≥ 1), kept structurally
recursive so that the kernel can evaluate it. -/
def log2fuel : Nat → Nat → Nat
  | 0, _ => 0
  | fuel + 1, n => if 2 ≤ n then log2fuel fuel (n / 2) + 1 else 0

/-- ⌊log₂ n⌋ for n ≥ 1. -/
def nlog2 (n : Nat) : Nat := log2fuel n n

/-- The rational `2^e` for an integer `e`, computed through `Nat.pow`
so that the kernel can evaluate it. -/
def scalePow (e : ℤ) : ℚ :=
  if 0 ≤ e then ((2 ^ e.toNat : ℕ) : ℚ) else 1 / ((2 ^ (-e).toNat : ℕ) : ℚ)

/-- Binade exponent of a positive rational: the `e` with `2^e ≤ q < 2^(e+1)`. -/
def qExp (q : ℚ) : ℤ :=
  let e0 : ℤ := (nlog2 q.num.natAbs : ℤ) - (nlog2 q.den : ℤ)
  if scalePow e0 ≤ q then e0 else e0 - 1

/-- Round a rational to the nearest integer, ties to even (the IEEE-754
default rounding used by CPython's binary64 arithmetic). -/
def rhe (x : ℚ) : ℤ :=
  let f := ⌊x⌋
  if x - f < 1 / 2 then f
  else if 1 / 2 < x - f then f + 1
  else if f % 2 = 0 then f else f + 1

/-- Exact value of rounding a real (rational) number to IEEE-754
binary64: round the 53-bit significand to nearest, ties to even.
Overflow and subnormals do not occur for the magnitudes the resize
arithmetic produces, so they are not modelled. -/
def roundD (q : ℚ) : ℚ :=
  if q = 0 then 0
  else (rhe (q / scalePow (qExp |q| - 52)) : ℚ) * scalePow (qExp |q| - 52)

/-- Python float division (`a / b` on binary64): correctly rounded true
quotient. -/
def pyDiv (a b : ℚ) : ℚ := roundD (a / b)

/-- Python float multiplication on binary64: correctly rounded true
product. -/
def pyMul (a b : ℚ) : ℚ := roundD (a * b)

/-- The dimension ceiling `max_dimension` (server.py line 324). -/
def max_dimension : Nat := 1500

/-- The resize computation (server.py lines 325–328):
`ratio = min(1500/w, 1500/h)`, `new_size = (int(w*ratio), int(h*ratio))`,
performed only when a dimension exceeds 1500.  The divisions and
multiplications are binary64 operations; `int(…)` truncates (floor for
these non-negative values).  Image dimensions are far below `2^53`, so
their conversion to float is exact. -/
def resizeDims (w h : Nat) : Nat × Nat :=
  if max_dimension < w ∨ max_dimension < h then
    let sc := min (pyDiv 1500 (w : ℚ)) (pyDiv 1500 (h : ℚ))
    ((⌊pyMul (w : ℚ) sc⌋).toNat, (⌊pyMul (h : ℚ) sc⌋).toNat)
  else (w, h)

/-- The payload ceiling of 3 MB (server.py line 337). -/
def MB3 : Nat := 3 * 1024 * 1024

/-- The encode/recompress policy (server.py lines 330–340), with the
JPEG encoder at a given quality abstracted as `encode`.  Returns the
final bytes, the recorded content type, and the list of qualities at
which an encode was performed.  The first encode is always at 85; a
second and final one at 50 happens exactly when the first output
exceeds 3 MB. -/
def encodeWithRetry (encode : Nat → List Nat) : (List Nat × String) × List Nat :=
  let c1 := encode 85
  if MB3 < c1.length then ((encode 50, "image/jpeg"), [85, 50])
  else ((c1, "image/jpeg"), [85])

/-- A text wrapped in one level of `json`-tagged Markdown fencing
(`"```json\n" + s + "\n```"`), the usual shape of fenced model output. -/
def wrapJson (s : List Char) : List Char := fenceJson ++ '\n' :: (s ++ '\n' :: fence3)

/-- A text wrapped in one level of untagged Markdown fencing
(`"```\n" + s + "\n```"`). -/
def wrapPlain (s : List Char) : List Char := fence3 ++ '\n' :: (s ++ '\n' :: fence3)

/-- View of a line-item JSON value through the four `LineItem` model
fields; `none` for values that are not objects. -/
def itemView : Json → Option (Option Json × Option Json × Option Json × Option Json)
  | .obj kvs => some (dictGet "description" kvs, dictGet "quantity" kvs,
      dictGet "unit_price" kvs, dictGet "total" kvs)
  | _ => none

theorem isPre_append_self : ∀ (p r : List Char), isPre p (p ++ r) = true
  | [], _ => rfl
  | a :: p, r => by simp [isPre, isPre_append_self p r]

theorem isPre_extend : ∀ {sep u : List Char} (w : List Char),
    isPre sep u = true → isPre sep (u ++ w) = true
  | [], _, _, _ => rfl
  | a :: p, [], w, h => by simp [isPre] at h
  | a :: p, b :: u, w, h => by
    simp [isPre] at h ⊢
    exact ⟨h.1, isPre_extend w h.2⟩

theorem isPre_length : ∀ {sep u : List Char}, isPre sep u = true → sep.length ≤ u.length
  | [], _, _ => by simp
  | a :: p, [], h => by simp [isPre] at h
  | a :: p, b :: u, h => by
    simp [isPre] at h
    simpa using isPre_length h.2

theorem mem_of_isPre_cons : ∀ {sep : List Char} {b : Char} {s : List Char},
    sep ≠ [] → isPre sep (b :: s) = true → b ∈ sep
  | [], _, _, hne, _ => absurd rfl hne
  | a :: p, b, s, _, h => by
    simp [isPre] at h
    simp [h.1.symm]

theorem isPre_barrier {x : Char} : ∀ {sep : List Char}, x ∉ sep →
    ∀ {u v : List Char}, isPre sep (u ++ x :: v) = true → isPre sep u = true
  | [], _, _, _, _ => rfl
  | a :: p, hx, [], v, h => by
    exact absurd (mem_of_isPre_cons (by simp) h) hx
  | a :: p, hx, b :: u, v, h => by
    simp [isPre] at h ⊢
    refine ⟨h.1, isPre_barrier (fun hm => hx (List.mem_cons_of_mem a hm)) h.2⟩

theorem isPre_barrier_eq {sep : List Char} {x : Char} (hx : x ∉ sep) (u v : List Char) :
    isPre sep (u ++ x :: v) = isPre sep u := by
  cases h : isPre sep u with
  | true => exact isPre_extend (x :: v) h
  | false =>
    cases h2 : isPre sep (u ++ x :: v) with
    | true => rw [isPre_barrier hx h2] at h; cases h
    | false => rfl

theorem containsSub_cons (sep : List Char) (c : Char) (rest : List Char) :
    containsSub sep (c :: rest) = (isPre sep (c :: rest) || containsSub sep rest) := rfl

theorem contains_of_isPre : ∀ {sep s : List Char}, isPre sep s = true → containsSub sep s = true
  | sep, [], h => by
    cases sep with
    | nil => rfl
    | cons a p => simp [isPre] at h
  | sep, c :: rest, h => by simp [containsSub_cons, h]

theorem isPre_append_elim : ∀ {p : List Char} (q : List Char) {s : List Char},
    isPre (p ++ q) s = true → isPre p s = true
  | [], _, _, _ => rfl
  | a :: p, q, [], h => by simp [isPre] at h
  | a :: p, q, b :: s, h => by
    simp [isPre] at h ⊢
    exact ⟨h.1, isPre_append_elim q h.2⟩

theorem contains_of_contains_append : ∀ {p : List Char} (q : List Char) {s : List Char},
    containsSub (p ++ q) s = true → containsSub p s = true
  | p, q, [], h => by
    simp [containsSub, List.isEmpty_iff] at h ⊢
    simp [h.1]
  | p, q, c :: rest, h => by
    simp only [containsSub_cons, Bool.or_eq_true] at h ⊢
    rcases h with h | h
    · exact Or.inl (isPre_append_elim q h)
    · exact Or.inr (contains_of_contains_append q h)

theorem containsSub_barrier {sep : List Char} {x : Char} (hx : x ∉ sep) (hne : sep ≠ []) :
    ∀ (u v : List Char), containsSub sep (u ++ x :: v) = (containsSub sep u || containsSub sep v)
  | [], v => by
    cases sep with
    | nil => exact absurd rfl hne
    | cons a p =>
      have ha : (a = x) = False := by
        simp only [eq_iff_iff, iff_false]
        intro he; exact hx (by simp [he])
      simp [containsSub_cons, containsSub, isPre, ha, List.isEmpty_iff]
  | c :: u, v => by
    rw [List.cons_append, containsSub_cons, containsSub_cons]
    have hkey : isPre sep (c :: (u ++ x :: v)) = isPre sep (c :: u) :=
      isPre_barrier_eq hx (c :: u) v
    rw [hkey, containsSub_barrier hx hne u v, Bool.or_assoc]

theorem containsSub_short_prefix {sep : List Char} {x : Char} (hx : x ∉ sep) :
    ∀ {u : List Char} {v : List Char}, u.length < sep.length → containsSub sep v = false →
      containsSub sep (u ++ x :: v) = false
  | [], v, hlen, hv => by
    have hne : sep ≠ [] := by intro he; rw [he] at hlen; simp at hlen
    rw [List.nil_append, containsSub_cons, hv, Bool.or_false]
    cases h : isPre sep (x :: v) with
    | false => rfl
    | true => exact absurd (mem_of_isPre_cons hne h) hx
  | c :: u, v, hlen, hv => by
    rw [List.cons_append, containsSub_cons]
    have h2 : containsSub sep (u ++ x :: v) = false :=
      containsSub_short_prefix hx (by simp at hlen ⊢; omega) hv
    rw [h2, Bool.or_false]
    cases h : isPre sep (c :: (u ++ x :: v)) with
    | false => rfl
    | true =>
      have h3 : isPre sep (c :: u) = true := isPre_barrier hx (u := c :: u) (v := v) h
      have h4 := isPre_length h3
      simp only [List.length_cons] at h4 hlen
      omega

theorem splitAux_nil (a : Char) (t : List Char) (fuel : Nat) (acc : List Char) :
    splitAux a t fuel [] acc = [acc.reverse] := by
  cases fuel <;> rfl

theorem splitAux_fuel (a : Char) (t : List Char) :
    ∀ (f1 f2 : Nat) (s acc : List Char), s.length ≤ f1 → s.length ≤ f2 →
      splitAux a t f1 s acc = splitAux a t f2 s acc := by
  intro f1
  induction f1 with
  | zero =>
    intro f2 s acc h1 h2
    have hs : s = [] := List.eq_nil_of_length_eq_zero (by omega)
    subst hs
    rw [splitAux_nil, splitAux_nil]
  | succ f ih =>
    intro f2 s acc h1 h2
    cases s with
    | nil => rw [splitAux_nil, splitAux_nil]
    | cons c rest =>
      cases f2 with
      | zero => simp at h2
      | succ g =>
        simp only [splitAux]
        simp only [List.length_cons] at h1 h2
        cases hp : isPre (a :: t) (c :: rest) with
        | true =>
          simp only [if_pos]
          rw [ih g (rest.drop t.length) []
            (by simp only [List.length_drop]; omega)
            (by simp only [List.length_drop]; omega)]
        | false =>
          simp only [Bool.false_eq_true, if_neg, not_false_iff]
          exact ih g rest (c :: acc) (by omega) (by omega)

theorem splitAux_none (a : Char) (t : List Char) :
    ∀ (fuel : Nat) (s acc : List Char), containsSub (a :: t) s = false →
      s.length ≤ fuel → splitAux a t fuel s acc = [acc.reverse ++ s] := by
  intro fuel
  induction fuel with
  | zero =>
    intro s acc hc h
    have hs : s = [] := List.eq_nil_of_length_eq_zero (by omega)
    subst hs
    simp [splitAux_nil]
  | succ f ih =>
    intro s acc hc h
    cases s with
    | nil => simp [splitAux_nil]
    | cons c rest =>
      rw [containsSub_cons, Bool.or_eq_false_iff] at hc
      simp only [splitAux, hc.1, Bool.false_eq_true, if_neg, not_false_iff]
      rw [ih rest (c :: acc) hc.2 (by simp only [List.length_cons] at h; omega)]
      simp

theorem splitAux_barrier {x : Char} (a : Char) (t : List Char) (hx : x ∉ a :: t) :
    ∀ (s : List Char) (v : List Char) (fuel : Nat) (acc : List Char),
      containsSub (a :: t) s = false → s.length + v.length + 1 ≤ fuel →
      splitAux a t fuel (s ++ x :: v) acc =
        splitAux a t v.length v (x :: (s.reverse ++ acc)) := by
  intro s
  induction s with
  | nil =>
    intro v fuel acc _ hf
    cases fuel with
    | zero => simp at hf
    | succ g =>
      have hp : isPre (a :: t) (x :: v) = false := by
        cases hp : isPre (a :: t) (x :: v) with
        | false => rfl
        | true => exact absurd (mem_of_isPre_cons (by simp) hp) hx
      simp only [List.nil_append, splitAux, hp, Bool.false_eq_true, if_neg, not_false_iff]
      rw [splitAux_fuel a t g v.length v (x :: acc) (by simp at hf; omega) le_rfl]
      simp
  | cons c s' ih =>
    intro v fuel acc hc hf
    cases fuel with
    | zero => simp at hf
    | succ g =>
      rw [containsSub_cons, Bool.or_eq_false_iff] at hc
      have hp : isPre (a :: t) (c :: (s' ++ x :: v)) = false := by
        have := @isPre_barrier_eq (a :: t) x hx (c :: s') v
        rw [List.cons_append] at this
        rw [this, hc.1]
      simp only [List.cons_append, splitAux, List.append_eq, hp, Bool.false_eq_true,
        if_neg, not_false_iff]
      rw [ih v g (c :: acc) hc.2 (by simp only [List.length_cons] at hf ⊢; omega)]
      simp

theorem splitOnL_self_append {sep : List Char} (hne : sep ≠ []) (r : List Char) :
    splitOnL sep (sep ++ r) = [] :: splitOnL sep r := by
  cases sep with
  | nil => exact absurd rfl hne
  | cons a t =>
    show splitAux a t ((a :: t) ++ r).length ((a :: t) ++ r) [] = _
    have hlen : ((a :: t) ++ r).length = (t.length + r.length) + 1 := by
      simp [List.length_append]
    rw [hlen]
    have hp : isPre (a :: t) (a :: (t ++ r)) = true := isPre_append_self (a :: t) r
    simp only [List.cons_append, splitAux, List.append_eq, hp, if_pos, List.reverse_nil]
    rw [List.drop_left]
    rw [splitAux_fuel a t (t.length + r.length) r.length r [] (by omega) le_rfl]
    rfl

theorem splitOnL_none {sep : List Char} (hne : sep ≠ []) {s : List Char}
    (hc : containsSub sep s = false) : splitOnL sep s = [s] := by
  cases sep with
  | nil => exact absurd rfl hne
  | cons a t =>
    show splitAux a t s.length s [] = _
    rw [splitAux_none a t s.length s [] hc le_rfl]
    simp

theorem splitOnL_nil (sep : List Char) : splitOnL sep [] = [[]] := by
  cases sep with
  | nil => rfl
  | cons a t => show splitAux a t 0 [] [] = [[]]; rfl

theorem splitAux_acc (a : Char) (t : List Char) :
    ∀ (fuel : Nat) (v acc : List Char), v.length ≤ fuel →
      splitAux a t fuel v acc =
        (acc.reverse ++ (splitOnL (a :: t) v).headD []) :: (splitOnL (a :: t) v).tail := by
  intro fuel
  induction fuel with
  | zero =>
    intro v acc h
    have hv : v = [] := List.eq_nil_of_length_eq_zero (by omega)
    subst hv
    rw [splitAux_nil, splitOnL_nil]
    simp
  | succ f ih =>
    intro v acc h
    cases v with
    | nil =>
      rw [splitAux_nil, splitOnL_nil]
      simp
    | cons c rest =>
      have hdef : splitOnL (a :: t) (c :: rest) =
          splitAux a t (rest.length + 1) (c :: rest) [] := by
        show splitAux a t (c :: rest).length (c :: rest) [] = _
        simp [List.length_cons]
      simp only [List.length_cons] at h
      cases hp : isPre (a :: t) (c :: rest) with
      | true =>
        simp only [splitAux, List.append_eq, hp, if_pos]
        rw [hdef]
        simp only [splitAux, List.append_eq, hp, if_pos]
        rw [splitAux_fuel a t f rest.length (rest.drop t.length) []
          (by simp only [List.length_drop]; omega) (by simp only [List.length_drop]; omega)]
        simp
      | false =>
        simp only [splitAux, List.append_eq, hp, Bool.false_eq_true, if_neg, not_false_iff]
        rw [hdef]
        simp only [splitAux, List.append_eq, hp, Bool.false_eq_true, if_neg, not_false_iff]
        rw [ih rest (c :: acc) (by omega)]
        rw [splitAux_fuel a t rest.length f rest [c] le_rfl (by omega)]
        rw [ih rest [c] (by omega)]
        simp

theorem splitOnL_barrier {sep : List Char} {x : Char} (hx : x ∉ sep) (hne : sep ≠ [])
    {u : List Char} (v : List Char) (hu : containsSub sep u = false) :
    splitOnL sep (u ++ x :: v) =
      ((u ++ [x]) ++ (splitOnL sep v).headD []) :: (splitOnL sep v).tail := by
  cases sep with
  | nil => exact absurd rfl hne
  | cons a t =>
    show splitAux a t (u ++ x :: v).length (u ++ x :: v) [] = _
    rw [splitAux_barrier a t hx u v (u ++ x :: v).length []
      hu (by simp [List.length_append]; omega)]
    rw [splitAux_acc a t v.length v (x :: (u.reverse ++ [])) le_rfl]
    simp

theorem containsSub_nl_cons {sep : List Char} (hnl : '\n' ∉ sep) (hne : sep ≠ [])
    {s : List Char} (hs : containsSub sep s = false) :
    containsSub sep ('\n' :: s) = false := by
  rw [containsSub_cons, hs, Bool.or_false]
  cases hp : isPre sep ('\n' :: s) with
  | false => rfl
  | true => exact absurd (mem_of_isPre_cons hne hp) hnl

theorem contains_fenceJson_of_fence3 {s : List Char} (hs : containsSub fence3 s = false) :
    containsSub fenceJson s = false := by
  cases h : containsSub fenceJson s with
  | false => rfl
  | true =>
    have hd : fenceJson = fence3 ++ "json".data := rfl
    rw [hd] at h
    rw [contains_of_contains_append "json".data h] at hs
    cases hs

theorem contains_R_false {sep : List Char} (hnl : '\n' ∉ sep) (hne : sep ≠ [])
    {s : List Char} (hs : containsSub sep s = false)
    (hf : containsSub sep fence3 = false) :
    containsSub sep (('\n' :: s) ++ '\n' :: fence3) = false := by
  rw [containsSub_barrier hnl hne ('\n' :: s) fence3,
    containsSub_nl_cons hnl hne hs, hf]
  rfl

theorem splitOnL_fence3_R (s : List Char) (hs : containsSub fence3 s = false) :
    splitOnL fence3 (('\n' :: s) ++ '\n' :: fence3) = [('\n' :: s) ++ ['\n'], []] := by
  have hnl : ('\n' : Char) ∉ fence3 := by decide
  have hne : fence3 ≠ [] := by decide
  rw [splitOnL_barrier hnl hne fence3 (containsSub_nl_cons hnl hne hs)]
  have hself : splitOnL fence3 fence3 = [[], []] := by
    have h0 : splitOnL fence3 (fence3 ++ []) = [] :: splitOnL fence3 [] :=
      splitOnL_self_append hne []
    rw [List.append_nil] at h0
    rw [h0, splitOnL_nil]
  rw [hself]
  simp

theorem stripFence_wrapJson {s : List Char} (hs : containsSub fence3 s = false) :
    stripFence (wrapJson s) = ('\n' :: s) ++ ['\n'] := by
  have hnlj : ('\n' : Char) ∉ fenceJson := by decide
  have hnej : fenceJson ≠ [] := by decide
  have hfjs := contains_fenceJson_of_fence3 hs
  have hcond : containsSub fenceJson (wrapJson s) = true :=
    contains_of_isPre (isPre_append_self fenceJson ('\n' :: (s ++ '\n' :: fence3)))
  have hsplit1 : splitOnL fenceJson (wrapJson s) = [[], ('\n' :: s) ++ '\n' :: fence3] := by
    show splitOnL fenceJson (fenceJson ++ ('\n' :: s) ++ '\n' :: fence3) = _
    rw [List.append_assoc, splitOnL_self_append hnej,
      splitOnL_none hnej (contains_R_false hnlj hnej hfjs (by decide))]
  rw [stripFence, if_pos hcond, hsplit1]
  show (splitOnL fence3 (('\n' :: s) ++ '\n' :: fence3)).getD 0 [] = _
  rw [splitOnL_fence3_R s hs]
  rfl

theorem stripFence_wrapPlain {s : List Char} (hs : containsSub fence3 s = false) :
    stripFence (wrapPlain s) = ('\n' :: s) ++ ['\n'] := by
  have hnl3 : ('\n' : Char) ∉ fence3 := by decide
  have hnlj : ('\n' : Char) ∉ fenceJson := by decide
  have hne3 : fence3 ≠ [] := by decide
  have hnej : fenceJson ≠ [] := by decide
  have hfjs := contains_fenceJson_of_fence3 hs
  have hcondj : containsSub fenceJson (wrapPlain s) = false := by
    have hv : containsSub fenceJson (s ++ '\n' :: fence3) = false := by
      rw [containsSub_barrier hnlj hnej s fence3, hfjs]
      simp [show containsSub fenceJson fence3 = false from by decide]
    exact containsSub_short_prefix hnlj (by decide) hv
  have hcond3 : containsSub fence3 (wrapPlain s) = true :=
    contains_of_isPre (isPre_append_self fence3 ('\n' :: (s ++ '\n' :: fence3)))
  have hsplit1 : splitOnL fence3 (wrapPlain s) = [[], ('\n' :: s) ++ ['\n'], []] := by
    show splitOnL fence3 (fence3 ++ ('\n' :: s) ++ '\n' :: fence3) = _
    rw [List.append_assoc, splitOnL_self_append hne3, splitOnL_fence3_R s hs]
  rw [stripFence, if_neg (by rw [hcondj]; exact Bool.false_ne_true), if_pos hcond3, hsplit1]
  show (splitOnL fence3 (('\n' :: s) ++ ['\n'])).getD 0 [] = _
  have hY : containsSub fence3 (('\n' :: s) ++ '\n' :: ([] : List Char)) = false := by
    rw [containsSub_barrier hnl3 hne3, containsSub_nl_cons hnl3 hne3 hs]
    rfl
  rw [splitOnL_none hne3 hY]
  rfl

theorem stripFence_id {s : List Char} (hs : containsSub fence3 s = false) :
    stripFence s = s := by
  have hfjs := contains_fenceJson_of_fence3 hs
  rw [stripFence, if_neg (by rw [hfjs]; exact Bool.false_ne_true),
    if_neg (by rw [hs]; exact Bool.false_ne_true)]

theorem pyStrip_wrap (s : List Char) : pyStrip (('\n' :: s) ++ ['\n']) = pyStrip s := by
  have hnl : pyIsSpace '\n' = true := by decide
  show stripR (stripL ('\n' :: (s ++ ['\n']))) = stripR (stripL s)
  rw [show stripL ('\n' :: (s ++ ['\n'])) = stripL (s ++ ['\n']) from by
    simp [stripL, List.dropWhile_cons, hnl]]
  rw [show stripL (s ++ ['\n']) = if (stripL s).isEmpty then stripL ['\n'] else stripL s ++ ['\n']
    from List.dropWhile_append ..]
  cases he : (stripL s).isEmpty with
  | true =>
    rw [if_pos rfl]
    have h1 : stripL ['\n'] = ([] : List Char) := by simp [stripL, List.dropWhile_cons, hnl]
    rw [h1, List.isEmpty_iff.mp he]
  | false =>
    rw [if_neg Bool.false_ne_true]
    show (stripL ((stripL s ++ ['\n']).reverse)).reverse = stripR (stripL s)
    rw [List.reverse_append]
    show (stripL ('\n' :: (stripL s).reverse)).reverse = _
    rw [show stripL ('\n' :: (stripL s).reverse) = stripL ((stripL s).reverse) from by
      simp [stripL, List.dropWhile_cons, hnl]]
    rfl

/-- C4 (amended): for every text `s` that does not itself contain the
fence marker ```` ``` ````, parsing `s` wrapped in a single level of
Markdown code fencing (tagged or untagged) yields the same result as
parsing `s` directly, and when no fencing is present the text is
parsed unchanged.  (The restriction is necessary: see the
counterexample for texts containing ```` ``` ````.) -/
theorem fence_stripping_equivalence (today : String) (s : List Char)
    (hs : containsSub fence3 s = false) :
    parseTextL today (wrapJson s) = parseTextL today s ∧
    parseTextL today (wrapPlain s) = parseTextL today s ∧
    stripFence s = s := by
  refine ⟨?_, ?_, stripFence_id hs⟩
  · rw [parseTextL, parseTextL, stripFence_wrapJson hs, stripFence_id hs, pyStrip_wrap]
  · rw [parseTextL, parseTextL, stripFence_wrapPlain hs, stripFence_id hs, pyStrip_wrap]

unseal Rat.add Rat.mul Rat.inv Rat.sub in
/-- Witness for `fence_stripping_equivalence` at a small JSON object. -/
theorem fence_stripping_equivalence_witness :
    containsSub fence3 "\x7b\"amount\": 5\x7d".data = false ∧
    (parseTextL "2026-10-12" (wrapJson "\x7b\"amount\": 5\x7d".data) =
        parseTextL "2026-10-12" "\x7b\"amount\": 5\x7d".data ∧
      parseTextL "2026-10-12" (wrapPlain "\x7b\"amount\": 5\x7d".data) =
        parseTextL "2026-10-12" "\x7b\"amount\": 5\x7d".data ∧
      stripFence "\x7b\"amount\": 5\x7d".data = "\x7b\"amount\": 5\x7d".data) :=
  ⟨by decide, fence_stripping_equivalence "2026-10-12" "\x7b\"amount\": 5\x7d".data (by decide)⟩

unseal Rat.add Rat.mul Rat.inv Rat.sub in
/-- C4 counterexample: for a text containing ```` ``` ```` the fenced
and unfenced parses differ (amount `1` versus amount `2`), because the
splitting on fence markers cuts at interior occurrences; so the claim
does not hold for every text. -/
theorem fence_stripping_counterexample :
    "```json\n\x7b\"amount\": 1\x7d```\x7b\"amount\": 2\x7d\n```".data =
      wrapJson "\x7b\"amount\": 1\x7d```\x7b\"amount\": 2\x7d".data ∧
    parseTextStr "2026-10-12" "\x7b\"amount\": 1\x7d```\x7b\"amount\": 2\x7d" =
      .ok ⟨"Unknown", "2026-10-12", 2, "USD", "Other", none, none, [], 1 / 2⟩ ∧
    parseTextStr "2026-10-12" "```json\n\x7b\"amount\": 1\x7d```\x7b\"amount\": 2\x7d\n```" =
      .ok ⟨"Unknown", "2026-10-12", 1, "USD", "Other", none, none, [], 1 / 2⟩ ∧
    (1 : ℚ) ≠ 2 :=
  ⟨rfl, rfl, rfl, by decide⟩

theorem exBind_ok {α β : Type} {x : Except ParseError α} {f : α → Except ParseError β} {b : β} :
    (x >>= f) = .ok b ↔ ∃ a, x = .ok a ∧ f a = .ok b := by
  cases x <;> simp [Bind.bind, Except.bind]

theorem buildResult_ok_iff (today : String) (kvs : List (String × Json)) (r : ReceiptScanResult) :
    buildResult today (.obj kvs) = .ok r ↔
      getVendor kvs = .ok r.vendor ∧ getDate today kvs = .ok r.date ∧
      getAmount kvs = .ok r.amount ∧ getCurrency kvs = .ok r.currency ∧
      getCategory kvs = .ok r.category ∧ getPayment kvs = .ok r.payment_method ∧
      getReceiptNo kvs = .ok r.receipt_number ∧ getItems kvs = .ok r.line_items ∧
      getConfidence kvs = .ok r.confidence_score := by
  constructor
  · intro h
    unfold buildResult at h
    rw [exBind_ok] at h
    obtain ⟨v, hv, h⟩ := h
    rw [exBind_ok] at h
    obtain ⟨dt, hdt, h⟩ := h
    rw [exBind_ok] at h
    obtain ⟨a, ha, h⟩ := h
    rw [exBind_ok] at h
    obtain ⟨c, hc, h⟩ := h
    rw [exBind_ok] at h
    obtain ⟨cat, hcat, h⟩ := h
    rw [exBind_ok] at h
    obtain ⟨pm, hpm, h⟩ := h
    rw [exBind_ok] at h
    obtain ⟨rn, hrn, h⟩ := h
    rw [exBind_ok] at h
    obtain ⟨lis, hlis, h⟩ := h
    rw [exBind_ok] at h
    obtain ⟨conf, hconf, h⟩ := h
    have h2 : (⟨v, dt, a, c, cat, pm, rn, lis, conf⟩ : ReceiptScanResult) = r := by
      injection h
    subst h2
    exact ⟨hv, hdt, ha, hc, hcat, hpm, hrn, hlis, hconf⟩
  · rintro ⟨hv, hdt, ha, hc, hcat, hpm, hrn, hlis, hconf⟩
    simp only [buildResult]
    rw [hv, hdt, ha, hc, hcat, hpm, hrn, hlis, hconf]
    rfl

unseal Rat.add Rat.mul Rat.inv Rat.sub in
/-- C5: parsing the raw text `"{}"` succeeds and returns
vendor `"Unknown"`, date equal to the current date string, amount `0`,
currency `"USD"`, category `"Other"`, no payment method, no receipt
number, an empty line-item list and confidence score `0.5`. -/
theorem parse_empty_object_defaults (today : String) :
    parseTextStr today "\x7b\x7d" =
      .ok ⟨"Unknown", today, 0, "USD", "Other", none, none, [], 1 / 2⟩ := rfl

unseal Rat.add Rat.mul Rat.inv Rat.sub in
/-- C1 counterexample: the endpoint does NOT clamp the confidence
score.  A raw confidence of `-1` is returned as `-1` (not `0`, and
outside `[0,1]`), and `2.5` is returned as `2.5` (not `1`), refuting
the claimed clamp at these concrete inputs. -/
theorem confidence_clamp_counterexample :
    (parseTextStr "2026-10-12" "\x7b\"confidence_score\": -1\x7d" =
      .ok ⟨"Unknown", "2026-10-12", 0, "USD", "Other", none, none, [], -1⟩) ∧
    (parseTextStr "2026-10-12" "\x7b\"confidence_score\": 2.5\x7d" =
      .ok ⟨"Unknown", "2026-10-12", 0, "USD", "Other", none, none, [], 5 / 2⟩) ∧
    ¬ (0 ≤ (-1 : ℚ)) ∧ ((5 : ℚ) / 2 ≠ 1) ∧ ((-1 : ℚ) ≠ 0) := by
  exact ⟨rfl, rfl, by decide, by decide, by decide⟩

/-- C1 (amended): the confidence score present in the provider JSON is
passed through `float(...)` unchanged — no clamping to `[0,1]` occurs
anywhere, so whatever value `float` yields is the value returned. -/
theorem confidence_passthrough (today : String) (kvs : List (String × Json)) (v : Json)
    (q : ℚ) (r : ReceiptScanResult) (hget : dictGet "confidence_score" kvs = some v)
    (hco : pyFloat v = .ok q) (hok : buildResult today (.obj kvs) = .ok r) :
    r.confidence_score = q := by
  have h := ((buildResult_ok_iff today kvs r).mp hok).2.2.2.2.2.2.2.2
  rw [getConfidence, fieldD, hget, Option.getD_some, hco] at h
  exact ((Except.ok.injEq _ _).mp h).symm

unseal Rat.add Rat.mul Rat.inv Rat.sub in
/-- Witness for `confidence_passthrough` at confidence `-1`. -/
theorem confidence_passthrough_witness :
    dictGet "confidence_score" [("confidence_score", Json.num (-1))] = some (Json.num (-1)) ∧
    (⟨"Unknown", "2026-10-12", 0, "USD", "Other", none, none, [], -1⟩ :
      ReceiptScanResult).confidence_score = -1 :=
  ⟨rfl, confidence_passthrough "2026-10-12" [("confidence_score", Json.num (-1))]
    (Json.num (-1)) (-1) _ rfl rfl rfl⟩

unseal Rat.add Rat.mul Rat.inv Rat.sub in
/-- C2 counterexample: the endpoint performs NO category
normalization.  The category text `"Groceries"`, which is not one of
the ten `CATEGORIES`, is returned verbatim instead of `"Other"`,
refuting the claimed taxonomy mapping at this concrete input. -/
theorem category_normalizer_counterexample :
    parseTextStr "2026-10-12" "\x7b\"category\": \"Groceries\"\x7d" =
      .ok ⟨"Unknown", "2026-10-12", 0, "USD", "Groceries", none, none, [], 1 / 2⟩ ∧
    "Groceries" ∉ CATEGORIES ∧ "Groceries" ≠ "Other" :=
  ⟨rfl, by decide, by decide⟩

/-- C2 (amended): the category text from the provider JSON is passed
through verbatim — membership in the 10-label taxonomy is not
enforced; only a missing category field yields the default `"Other"`. -/
theorem category_passthrough :
    (∀ (today : String) (kvs : List (String × Json)) (s : String) (r : ReceiptScanResult),
      dictGet "category" kvs = some (.str s) →
      buildResult today (.obj kvs) = .ok r → r.category = s) ∧
    (∀ (today : String) (kvs : List (String × Json)) (r : ReceiptScanResult),
      dictGet "category" kvs = none →
      buildResult today (.obj kvs) = .ok r → r.category = "Other") := by
  constructor
  · intro today kvs s r hget hok
    have h := ((buildResult_ok_iff today kvs r).mp hok).2.2.2.2.1
    rw [getCategory, fieldD, hget, Option.getD_some] at h
    exact ((Except.ok.injEq _ _).mp ((asStr.eq_def _).symm ▸ h)).symm
  · intro today kvs r hget hok
    have h := ((buildResult_ok_iff today kvs r).mp hok).2.2.2.2.1
    rw [getCategory, fieldD, hget, Option.getD_none] at h
    exact ((Except.ok.injEq _ _).mp h).symm

unseal Rat.add Rat.mul Rat.inv Rat.sub in
/-- Witness for `category_passthrough` at category `"Groceries"`. -/
theorem category_passthrough_witness :
    dictGet "category" [("category", Json.str "Groceries")] = some (Json.str "Groceries") ∧
    (⟨"Unknown", "2026-10-12", 0, "USD", "Groceries", none, none, [], 1 / 2⟩ :
      ReceiptScanResult).category = "Groceries" :=
  ⟨rfl, category_passthrough.1 "2026-10-12" [("category", Json.str "Groceries")] "Groceries"
    _ rfl rfl⟩

theorem parseItems_error_of_mem : ∀ (xs : List Json) (j : Json), j ∈ xs →
    parseItem j = .error .malformedResponse →
    parseItems xs = .error .malformedResponse := by
  intro xs
  induction xs with
  | nil => intro j h; cases h
  | cons a rest ih =>
    intro j hmem hbad
    rcases List.mem_cons.mp hmem with rfl | h2
    · simp [parseItems, hbad, Bind.bind, Except.bind]
    · cases ha : parseItem a with
      | error e => cases e; simp [parseItems, ha, Bind.bind, Except.bind]
      | ok li => simp [parseItems, ha, Bind.bind, Except.bind, ih j h2 hbad]

/-- C3: a line-item element that fails `LineItem` validation (for
example one missing the required `description` field) makes the whole
parse fail with `MalformedResponse`; no result with a partial
line-item list is returned. -/
theorem malformed_line_item_fails_parse :
    (∀ (ikvs : List (String × Json)), dictGet "description" ikvs = none →
      parseItem (.obj ikvs) = .error .malformedResponse) ∧
    (∀ (today : String) (kvs : List (String × Json)) (xs : List Json) (j : Json),
      dictGet "line_items" kvs = some (.arr xs) → j ∈ xs →
      parseItem j = .error .malformedResponse →
      buildResult today (.obj kvs) = .error .malformedResponse) := by
  constructor
  · intro ikvs hget
    simp [parseItem, hget, Bind.bind, Except.bind]
  · intro today kvs xs j hget hmem hbad
    have hit : getItems kvs = .error .malformedResponse := by
      rw [getItems, fieldD, hget, Option.getD_some]
      exact parseItems_error_of_mem xs j hmem hbad
    cases hb : buildResult today (.obj kvs) with
    | error e => cases e; rfl
    | ok r =>
      exfalso
      have h := ((buildResult_ok_iff today kvs r).mp hb).2.2.2.2.2.2.2.1
      rw [hit] at h
      exact Except.noConfusion h

unseal Rat.add Rat.mul Rat.inv Rat.sub in
/-- Witness for `malformed_line_item_fails_parse`: a two-element
line-item list whose second element lacks `description` aborts the
whole parse. -/
theorem malformed_line_item_fails_parse_witness :
    dictGet "description" [("quantity", Json.num 2)] = none ∧
    dictGet "line_items"
        [("line_items", Json.arr [Json.obj [("description", Json.str "ok")],
          Json.obj [("quantity", Json.num 2)]])] =
      some (Json.arr [Json.obj [("description", Json.str "ok")],
        Json.obj [("quantity", Json.num 2)]]) ∧
    buildResult "2026-10-12"
        (.obj [("line_items", Json.arr [Json.obj [("description", Json.str "ok")],
          Json.obj [("quantity", Json.num 2)]])]) =
      .error .malformedResponse :=
  ⟨rfl, rfl,
    malformed_line_item_fails_parse.2 "2026-10-12" _ _ (Json.obj [("quantity", Json.num 2)])
      rfl (by simp) (malformed_line_item_fails_parse.1 [("quantity", Json.num 2)] rfl)⟩

theorem parseItem_congr (a b : Json) (h : itemView a = itemView b) :
    parseItem a = parseItem b := by
  cases a <;> cases b
  case obj.obj =>
    simp only [itemView, Option.some.injEq, Prod.mk.injEq] at h
    obtain ⟨h1, h2, h3, h4⟩ := h
    simp only [parseItem, h1, h2, h3, h4]
  all_goals first
    | rfl
    | exact Option.noConfusion h

theorem parseItems_congr {xs ys : List Json}
    (h : List.Forall₂ (fun a b => itemView a = itemView b) xs ys) :
    parseItems xs = parseItems ys := by
  induction h with
  | nil => rfl
  | cons hab _ ih =>
    simp only [parseItems]
    rw [parseItem_congr _ _ hab, ih]

/-- C10: two provider JSON objects that agree on the nine schema
fields — and, within each line item, on `description`, `quantity`,
`unit_price` and `total` — parse to the same result; keys outside the
schema never cause a failure and never influence the returned
`ReceiptScanResult`. -/
theorem extra_keys_no_influence (today : String) (kvs1 kvs2 : List (String × Json))
    (hv : dictGet "vendor" kvs1 = dictGet "vendor" kvs2)
    (hd : dictGet "date" kvs1 = dictGet "date" kvs2)
    (ha : dictGet "amount" kvs1 = dictGet "amount" kvs2)
    (hc : dictGet "currency" kvs1 = dictGet "currency" kvs2)
    (hcat : dictGet "category" kvs1 = dictGet "category" kvs2)
    (hp : dictGet "payment_method" kvs1 = dictGet "payment_method" kvs2)
    (hr : dictGet "receipt_number" kvs1 = dictGet "receipt_number" kvs2)
    (hcs : dictGet "confidence_score" kvs1 = dictGet "confidence_score" kvs2)
    (hli : dictGet "line_items" kvs1 = dictGet "line_items" kvs2 ∨
      ∃ xs ys, dictGet "line_items" kvs1 = some (.arr xs) ∧
        dictGet "line_items" kvs2 = some (.arr ys) ∧
        List.Forall₂ (fun a b => itemView a = itemView b) xs ys) :
    buildResult today (.obj kvs1) = buildResult today (.obj kvs2) := by
  have e1 : getVendor kvs1 = getVendor kvs2 := by rw [getVendor, getVendor, fieldD, fieldD, hv]
  have e2 : getDate today kvs1 = getDate today kvs2 := by
    rw [getDate, getDate, fieldD, fieldD, hd]
  have e3 : getAmount kvs1 = getAmount kvs2 := by rw [getAmount, getAmount, fieldD, fieldD, ha]
  have e4 : getCurrency kvs1 = getCurrency kvs2 := by
    rw [getCurrency, getCurrency, fieldD, fieldD, hc]
  have e5 : getCategory kvs1 = getCategory kvs2 := by
    rw [getCategory, getCategory, fieldD, fieldD, hcat]
  have e6 : getPayment kvs1 = getPayment kvs2 := by
    rw [getPayment, getPayment, fieldD, fieldD, hp]
  have e7 : getReceiptNo kvs1 = getReceiptNo kvs2 := by
    rw [getReceiptNo, getReceiptNo, fieldD, fieldD, hr]
  have e8 : getItems kvs1 = getItems kvs2 := by
    rcases hli with heq | ⟨xs, ys, hx, hy, hf⟩
    · rw [getItems, getItems, fieldD, fieldD, heq]
    · rw [getItems, getItems, fieldD, fieldD, hx, hy, Option.getD_some, Option.getD_some]
      exact parseItems_congr hf
  have e9 : getConfidence kvs1 = getConfidence kvs2 := by
    rw [getConfidence, getConfidence, fieldD, fieldD, hcs]
  simp only [buildResult, e1, e2, e3, e4, e5, e6, e7, e8, e9]

unseal Rat.add Rat.mul Rat.inv Rat.sub in
/-- Witness for `extra_keys_no_influence` on two objects differing
only in unknown keys (top-level and inside a line item). -/
theorem extra_keys_no_influence_witness :
    buildResult "2026-10-12"
        (.obj [("vendor", Json.str "A"), ("junk", Json.num 3),
          ("line_items", Json.arr [Json.obj [("description", Json.str "x"),
            ("note_extra", Json.null)]])]) =
      buildResult "2026-10-12"
        (.obj [("vendor", Json.str "A"),
          ("line_items", Json.arr [Json.obj [("description", Json.str "x"),
            ("another", Json.bool true)]]), ("trailing", Json.str "y")]) :=
  extra_keys_no_influence "2026-10-12" _ _ rfl rfl rfl rfl rfl rfl rfl rfl
    (Or.inr ⟨_, _, rfl, rfl, List.Forall₂.cons rfl List.Forall₂.nil⟩)

/-- C6: byte-signature sniffing — a PNG-signature prefix is detected
as `image/png`, a JPEG prefix as `image/jpeg`, RIFF....WEBP markers as
`image/webp`; a `%PDF` prefix makes normalization fail with
`UnsupportedFormat`; any payload matching none of these signatures is
detected as `image/jpeg`.  The client-supplied content type is never
consulted (`detectType` takes only the bytes). -/
theorem format_detection (content : List Nat) :
    (content.take 8 = pngSig → detectType content = "image/png") ∧
    (content.take 2 = [0xff, 0xd8] → detectType content = "image/jpeg") ∧
    (content.take 4 = [0x52, 0x49, 0x46, 0x46] →
      (content.drop 8).take 4 = [0x57, 0x45, 0x42, 0x50] →
      detectType content = "image/webp") ∧
    (content.take 4 = [0x25, 0x50, 0x44, 0x46] →
      checkFormat content = .error .unsupportedFormat) ∧
    (content.take 8 ≠ pngSig → content.take 2 ≠ [0xff, 0xd8] →
      ¬(content.take 4 = [0x52, 0x49, 0x46, 0x46] ∧
        (content.drop 8).take 4 = [0x57, 0x45, 0x42, 0x50]) →
      content.take 4 ≠ [0x25, 0x50, 0x44, 0x46] →
      detectType content = "image/jpeg") := by
  have tk2of8 : ∀ h : content.take 8 = pngSig, content.take 2 = pngSig.take 2 := by
    intro h
    have := congrArg (List.take 2) h
    rwa [List.take_take, show min 2 8 = 2 from by decide] at this
  have tk4of8 : ∀ h : content.take 8 = pngSig, content.take 4 = pngSig.take 4 := by
    intro h
    have := congrArg (List.take 4) h
    rwa [List.take_take, show min 4 8 = 4 from by decide] at this
  have tk2of4 : ∀ (w : List Nat), content.take 4 = w → content.take 2 = w.take 2 := by
    intro w h
    have := congrArg (List.take 2) h
    rwa [List.take_take, show min 2 4 = 2 from by decide] at this
  refine ⟨?_, ?_, ?_, ?_, ?_⟩
  · intro h
    rw [detectType, if_pos h]
  · intro h
    have h8 : content.take 8 ≠ pngSig := by
      intro he
      rw [tk2of8 he] at h
      exact absurd h (by decide)
    rw [detectType, if_neg h8, if_pos h]
  · intro hr hw
    have h8 : content.take 8 ≠ pngSig := by
      intro he
      rw [tk4of8 he] at hr
      exact absurd hr (by decide)
    have h2 : content.take 2 ≠ [0xff, 0xd8] := by
      intro he
      rw [tk2of4 _ hr] at he
      exact absurd he (by decide)
    rw [detectType, if_neg h8, if_neg h2, if_pos ⟨hr, hw⟩]
  · intro hp
    have h8 : content.take 8 ≠ pngSig := by
      intro he
      rw [tk4of8 he] at hp
      exact absurd hp (by decide)
    have h2 : content.take 2 ≠ [0xff, 0xd8] := by
      intro he
      rw [tk2of4 _ hp] at he
      exact absurd he (by decide)
    have hw : ¬(content.take 4 = [0x52, 0x49, 0x46, 0x46] ∧
        (content.drop 8).take 4 = [0x57, 0x45, 0x42, 0x50]) := by
      rintro ⟨h1, -⟩
      rw [hp] at h1
      exact absurd h1 (by decide)
    have hd : detectType content = "application/pdf" := by
      rw [detectType, if_neg h8, if_neg h2, if_neg hw, if_pos hp]
    rw [checkFormat, hd, if_pos rfl]
  · intro h8 h2 hw hp
    rw [detectType, if_neg h8, if_neg h2, if_neg hw, if_neg hp]

/-- Witness for `format_detection` on five concrete payloads. -/
theorem format_detection_witness :
    detectType [0x89, 0x50, 0x4e, 0x47, 0x0d, 0x0a, 0x1a, 0x0a, 1, 2] = "image/png" ∧
    detectType [0xff, 0xd8, 0xff, 0xe0] = "image/jpeg" ∧
    detectType [0x52, 0x49, 0x46, 0x46, 9, 9, 9, 9, 0x57, 0x45, 0x42, 0x50] = "image/webp" ∧
    checkFormat [0x25, 0x50, 0x44, 0x46, 0x2d] = .error .unsupportedFormat ∧
    detectType [0x00, 0x01, 0x02] = "image/jpeg" :=
  ⟨(format_detection _).1 (by decide),
    (format_detection _).2.1 (by decide),
    (format_detection _).2.2.1 (by decide) (by decide),
    (format_detection _).2.2.2.1 (by decide),
    (format_detection _).2.2.2.2 (by decide) (by decide) (by decide) (by decide)⟩

/-- C7: the normalized output is always tagged with the single
canonical encoding (`image/jpeg`) and either the first encode at
quality 85 is at most 3 MB and is the result, or exactly one further
encode at quality 50 is performed and taken as final — a bounded
two-attempt policy. -/
theorem bounded_recompression (encode : Nat → List Nat) :
    (encodeWithRetry encode).1.2 = "image/jpeg" ∧
    (((encodeWithRetry encode).2 = [85] ∧ (encodeWithRetry encode).1.1 = encode 85 ∧
        (encode 85).length ≤ MB3) ∨
      ((encodeWithRetry encode).2 = [85, 50] ∧ MB3 < (encode 85).length ∧
        (encodeWithRetry encode).1.1 = encode 50)) := by
  rw [encodeWithRetry]
  by_cases h : MB3 < (encode 85).length
  · rw [if_pos h]
    exact ⟨rfl, Or.inr ⟨rfl, h, rfl⟩⟩
  · rw [if_neg h]
    exact ⟨rfl, Or.inl ⟨rfl, rfl, by omega⟩⟩

theorem log2fuel_spec : ∀ (fuel n : Nat), 0 < n → n ≤ fuel →
    2 ^ log2fuel fuel n ≤ n ∧ n < 2 ^ (log2fuel fuel n + 1) := by
  intro fuel
  induction fuel with
  | zero => intro n h1 h2; omega
  | succ f ih =>
    intro n h1 h2
    by_cases h : 2 ≤ n
    · have hrec := ih (n / 2) (by omega) (by omega)
      simp only [log2fuel, if_pos h]
      constructor
      · calc 2 ^ (log2fuel f (n / 2) + 1) = 2 ^ log2fuel f (n / 2) * 2 := by ring
        _ ≤ n / 2 * 2 := by omega
        _ ≤ n := by omega
      · calc n < n / 2 * 2 + 2 := by omega
        _ ≤ 2 ^ (log2fuel f (n / 2) + 1) * 2 := by
            have := hrec.2
            omega
        _ = 2 ^ (log2fuel f (n / 2) + 1 + 1) := by ring
    · simp only [log2fuel, if_neg h]
      omega

theorem nlog2_spec (n : Nat) (h : 0 < n) :
    2 ^ nlog2 n ≤ n ∧ n < 2 ^ (nlog2 n + 1) :=
  log2fuel_spec n n h le_rfl

theorem scalePow_eq (e : ℤ) : scalePow e = (2 : ℚ) ^ e := by
  rw [scalePow]
  by_cases h : 0 ≤ e
  · rw [if_pos h]
    push_cast
    rw [← zpow_natCast, Int.toNat_of_nonneg h]
  · rw [if_neg h]
    push_cast
    rw [← zpow_natCast, Int.toNat_of_nonneg (by omega), one_div, ← zpow_neg, neg_neg]

theorem scalePow_pos (e : ℤ) : 0 < scalePow e := by
  rw [scalePow_eq]
  exact zpow_pos (by norm_num) e

theorem qExp_spec (q : ℚ) (hq : 0 < q) :
    (2 : ℚ) ^ qExp q ≤ q ∧ q < (2 : ℚ) ^ (qExp q + 1) := by
  have hnum : 0 < q.num := Rat.num_pos.mpr hq
  have hn : 0 < q.num.natAbs := by omega
  have hdpos : 0 < q.den := q.pos
  obtain ⟨hn1, hn2⟩ := nlog2_spec _ hn
  obtain ⟨hd1, hd2⟩ := nlog2_spec _ hdpos
  set l := nlog2 q.num.natAbs with hldef
  set m := nlog2 q.den with hmdef
  have hq_eq : q = (q.num.natAbs : ℚ) / (q.den : ℚ) := by
    have hN : ((q.num.natAbs : ℕ) : ℚ) = ((q.num : ℤ) : ℚ) := by
      rw [Int.cast_natAbs]
      exact congrArg (fun z : ℤ => (z : ℚ)) (abs_of_nonneg hnum.le)
    rw [hN, Rat.num_div_den]
  have hpow : ∀ (i j : ℕ), (2 : ℚ) ^ ((i : ℤ) - j) = ((2 ^ i : ℕ) : ℚ) / ((2 ^ j : ℕ) : ℚ) := by
    intro i j
    rw [zpow_sub₀ (two_ne_zero), zpow_natCast, zpow_natCast]
    push_cast
    ring
  have c1 : (q.num.natAbs : ℚ) < 2 ^ (l + 1) := by exact_mod_cast hn2
  have c2 : ((2 : ℚ) ^ m) ≤ q.den := by exact_mod_cast hd1
  have c3 : ((2 : ℚ) ^ l) ≤ q.num.natAbs := by exact_mod_cast hn1
  have c4 : (q.den : ℚ) < 2 ^ (m + 1) := by exact_mod_cast hd2
  have hub : q < (2 : ℚ) ^ ((l : ℤ) - m + 1) := by
    rw [show (l : ℤ) - m + 1 = ((l + 1 : ℕ) : ℤ) - (m : ℕ) from by push_cast; ring,
      hpow, hq_eq, div_lt_div_iff₀ (by exact_mod_cast hdpos) (by positivity)]
    push_cast
    nlinarith [pow_pos (show (0:ℚ) < 2 from by norm_num) m]
  have hlb : (2 : ℚ) ^ ((l : ℤ) - m - 1) < q := by
    rw [show (l : ℤ) - m - 1 = ((l : ℕ) : ℤ) - ((m + 1 : ℕ)) from by push_cast; ring,
      hpow, hq_eq, div_lt_div_iff₀ (by positivity) (by exact_mod_cast hdpos)]
    push_cast
    nlinarith [pow_pos (show (0:ℚ) < 2 from by norm_num) l]
  rw [qExp]
  by_cases hcase : scalePow ((l : ℤ) - m) ≤ q
  · rw [if_pos hcase]
    exact ⟨by rw [← scalePow_eq]; exact hcase, hub⟩
  · rw [if_neg hcase]
    rw [scalePow_eq] at hcase
    constructor
    · exact le_of_lt hlb
    · rw [show (l : ℤ) - m - 1 + 1 = (l : ℤ) - m from by ring]
      exact lt_of_not_le hcase

theorem rhe_bound (x : ℚ) : |((rhe x : ℤ) : ℚ) - x| ≤ 1 / 2 := by
  have hfl : ((⌊x⌋ : ℤ) : ℚ) ≤ x := Int.floor_le x
  have hfu : x < ((⌊x⌋ : ℤ) : ℚ) + 1 := Int.lt_floor_add_one x
  rw [rhe]
  by_cases h1 : x - (⌊x⌋ : ℚ) < 1 / 2
  · rw [if_pos h1]
    rw [abs_le]
    constructor <;> linarith
  · rw [if_neg h1]
    by_cases h2 : (1 : ℚ) / 2 < x - (⌊x⌋ : ℚ)
    · rw [if_pos h2]
      rw [abs_le]
      push_cast
      constructor <;> linarith
    · rw [if_neg h2]
      have hx : x - (⌊x⌋ : ℚ) = 1 / 2 := by linarith
      by_cases h3 : ⌊x⌋ % 2 = 0
      · rw [if_pos h3, abs_le]
        constructor <;> linarith
      · rw [if_neg h3, abs_le]
        push_cast
        constructor <;> linarith

theorem roundD_err (q : ℚ) (hq : 0 < q) : |roundD q - q| ≤ q / 2 ^ 53 := by
  have habs : |q| = q := abs_of_pos hq
  rw [roundD, if_neg (ne_of_gt hq), habs]
  set e := qExp q with he
  set sc := scalePow (e - 52) with hsc
  have hscpos : 0 < sc := scalePow_pos _
  have hkey : (rhe (q / sc) : ℚ) * sc - q = ((rhe (q / sc) : ℚ) - q / sc) * sc := by
    field_simp
  rw [hkey, abs_mul, abs_of_pos hscpos]
  have h1 : |((rhe (q / sc) : ℤ) : ℚ) - q / sc| ≤ 1 / 2 := rhe_bound (q / sc)
  have h2 : |((rhe (q / sc) : ℤ) : ℚ) - q / sc| * sc ≤ (1 / 2) * sc := by
    exact mul_le_mul_of_nonneg_right h1 (le_of_lt hscpos)
  refine le_trans h2 ?_
  have hsc_eq : sc = (2 : ℚ) ^ (e - 52 : ℤ) := scalePow_eq _
  have hq_ge : (2 : ℚ) ^ (e : ℤ) ≤ q := (qExp_spec q hq).1
  rw [hsc_eq]
  have h52 : (2 : ℚ) ^ (e - 52 : ℤ) = (2 : ℚ) ^ (e : ℤ) / 4503599627370496 := by
    rw [zpow_sub₀ (two_ne_zero)]
    norm_num
  rw [h52, show ((2 : ℚ) ^ 53) = 9007199254740992 from by norm_num]
  linarith

theorem roundD_le (q : ℚ) (hq : 0 < q) : roundD q ≤ q * (1 + 1 / 2 ^ 53) := by
  have h := abs_le.mp (roundD_err q hq)
  have h2 : q / 2 ^ 53 = q * (1 / 2 ^ 53) := by ring
  nlinarith [h.2]

theorem roundD_ge (q : ℚ) (hq : 0 < q) : q * (1 - 1 / 2 ^ 53) ≤ roundD q := by
  have h := abs_le.mp (roundD_err q hq)
  nlinarith [h.1]

theorem roundD_pos (q : ℚ) (hq : 0 < q) : 0 < roundD q := by
  have h := roundD_ge q hq
  nlinarith

set_option maxHeartbeats 1000000 in
theorem resize_core (w h : Nat) (hw : 0 < w) (hh : 0 < h) (hwh : h ≤ w)
    (hbig : max_dimension < w) (hwB : w ≤ 2 ^ 40) (hhB : h ≤ 2 ^ 40) :
    (1499 ≤ (resizeDims w h).1 ∧ (resizeDims w h).1 ≤ 1500) ∧
    (resizeDims w h).2 ≤ 1500 ∧
    |((resizeDims w h).1 : ℚ) * h - ((resizeDims w h).2 : ℚ) * w| <
      (w : ℚ) + h + 1 := by
  have hwQ : (0 : ℚ) < w := by exact_mod_cast hw
  have hhQ : (0 : ℚ) < h := by exact_mod_cast hh
  have hwhQ : (h : ℚ) ≤ w := by exact_mod_cast hwh
  have hwBQ : (w : ℚ) ≤ 2 ^ 40 := by exact_mod_cast hwB
  have hhBQ : (h : ℚ) ≤ 2 ^ 40 := by exact_mod_cast hhB
  set u : ℚ := 1 / 2 ^ 53 with hu_def
  have hu0 : (0 : ℚ) < u := by norm_num [hu_def]
  have hu6 : u ≤ 1 / 1000000 := by norm_num [hu_def]
  set sc := min (pyDiv 1500 (w : ℚ)) (pyDiv 1500 (h : ℚ)) with hsc_def
  have hres : resizeDims w h = ((⌊pyMul (w : ℚ) sc⌋).toNat, (⌊pyMul (h : ℚ) sc⌋).toNat) := by
    rw [resizeDims, if_pos (Or.inl hbig)]
  have hqw : (0 : ℚ) < 1500 / w := by positivity
  have hqh : (0 : ℚ) < 1500 / h := by positivity
  have hdw_le : pyDiv 1500 (w : ℚ) ≤ (1500 / w) * (1 + u) := roundD_le _ hqw
  have hdw_ge : (1500 / w) * (1 - u) ≤ pyDiv 1500 (w : ℚ) := roundD_ge _ hqw
  have hdh_ge : (1500 / h) * (1 - u) ≤ pyDiv 1500 (h : ℚ) := roundD_ge _ hqh
  have hdivs : (1500 : ℚ) / w ≤ 1500 / h := by
    rw [div_le_div_iff₀ hwQ hhQ]
    nlinarith
  have hsc_le : sc ≤ (1500 / w) * (1 + u) := le_trans (min_le_left _ _) hdw_le
  have hsc_ge : (1500 / w) * (1 - u) ≤ sc := by
    refine le_min hdw_ge (le_trans ?_ hdh_ge)
    nlinarith
  have hsc_pos : 0 < sc := by nlinarith
  have hwsc : (w : ℚ) * ((1500 / w) * (1 + u)) = 1500 * (1 + u) := by
    field_simp
  have hwsc2 : (w : ℚ) * ((1500 / w) * (1 - u)) = 1500 * (1 - u) := by
    field_simp
  -- bounds on the w-side product
  have hWsc_up : (w : ℚ) * sc ≤ 1500 * (1 + u) := by
    have hm := mul_le_mul_of_nonneg_left hsc_le (le_of_lt hwQ)
    rwa [hwsc] at hm
  have hWsc_lo : 1500 * (1 - u) ≤ (w : ℚ) * sc := by
    have hm := mul_le_mul_of_nonneg_left hsc_ge (le_of_lt hwQ)
    rwa [hwsc2] at hm
  have hWsc_pos : 0 < (w : ℚ) * sc := by positivity
  have hAw_le : pyMul (w : ℚ) sc ≤ ((w : ℚ) * sc) * (1 + u) := roundD_le _ hWsc_pos
  have hAw_ge : ((w : ℚ) * sc) * (1 - u) ≤ pyMul (w : ℚ) sc := roundD_ge _ hWsc_pos
  have hup1 : ((w : ℚ) * sc) * (1 + u) ≤ 1500 * (1 + u) * (1 + u) :=
    mul_le_mul_of_nonneg_right hWsc_up (by positivity)
  have hupnum : (1500 : ℚ) * (1 + u) * (1 + u) < 1501 := by
    rw [hu_def]; norm_num
  have hAw_up : pyMul (w : ℚ) sc < 1501 := by linarith
  have hlo1 : 1500 * (1 - u) * (1 - u) ≤ ((w : ℚ) * sc) * (1 - u) :=
    mul_le_mul_of_nonneg_right hWsc_lo (by rw [hu_def]; norm_num)
  have hlonum : (1499 : ℚ) < 1500 * (1 - u) * (1 - u) := by
    rw [hu_def]; norm_num
  have hAw_lo : 1499 < pyMul (w : ℚ) sc := by linarith
  -- bounds on the h-side product
  have hHsc_pos : 0 < (h : ℚ) * sc := by positivity
  have hHsc_le : (h : ℚ) * sc ≤ (w : ℚ) * sc :=
    mul_le_mul_of_nonneg_right hwhQ (le_of_lt hsc_pos)
  have hAh_le : pyMul (h : ℚ) sc ≤ ((h : ℚ) * sc) * (1 + u) := roundD_le _ hHsc_pos
  have hAh_ge : ((h : ℚ) * sc) * (1 - u) ≤ pyMul (h : ℚ) sc := roundD_ge _ hHsc_pos
  have hup2 : ((h : ℚ) * sc) * (1 + u) ≤ ((w : ℚ) * sc) * (1 + u) :=
    mul_le_mul_of_nonneg_right hHsc_le (by positivity)
  have hAh_up : pyMul (h : ℚ) sc < 1501 := by linarith
  have hAh_pos : 0 < pyMul (h : ℚ) sc := roundD_pos _ hHsc_pos
  have hAw_pos : 0 < pyMul (w : ℚ) sc := roundD_pos _ hWsc_pos
  -- floors
  have hfw_lo : (1499 : ℤ) ≤ ⌊pyMul (w : ℚ) sc⌋ := by
    rw [Int.le_floor]
    push_cast
    linarith
  have hfw_up : ⌊pyMul (w : ℚ) sc⌋ < 1501 := by
    rw [Int.floor_lt]
    push_cast
    linarith
  have hfh_up : ⌊pyMul (h : ℚ) sc⌋ < 1501 := by
    rw [Int.floor_lt]
    push_cast
    linarith
  have hfh_lo : (0 : ℤ) ≤ ⌊pyMul (h : ℚ) sc⌋ := by
    rw [Int.le_floor]
    push_cast
    linarith
  refine ⟨⟨?_, ?_⟩, ?_, ?_⟩
  · rw [hres]; omega
  · rw [hres]; omega
  · rw [hres]; omega
  · rw [hres]
    -- aspect-ratio bound
    have hcw : ((⌊pyMul (w : ℚ) sc⌋.toNat : ℕ) : ℚ) = ((⌊pyMul (w : ℚ) sc⌋ : ℤ) : ℚ) := by
      have h0 : (0 : ℤ) ≤ ⌊pyMul (w : ℚ) sc⌋ := by omega
      exact_mod_cast congrArg (fun z : ℤ => (z : ℚ)) (Int.toNat_of_nonneg h0)
    have hch : ((⌊pyMul (h : ℚ) sc⌋.toNat : ℕ) : ℚ) = ((⌊pyMul (h : ℚ) sc⌋ : ℤ) : ℚ) := by
      have h0 : (0 : ℤ) ≤ ⌊pyMul (h : ℚ) sc⌋ := by omega
      exact_mod_cast congrArg (fun z : ℤ => (z : ℚ)) (Int.toNat_of_nonneg h0)
    show |((⌊pyMul (w : ℚ) sc⌋.toNat : ℕ) : ℚ) * h -
        ((⌊pyMul (h : ℚ) sc⌋.toNat : ℕ) : ℚ) * w| < (w : ℚ) + h + 1
    rw [hcw, hch]
    set Aw := pyMul (w : ℚ) sc with hAw_def
    set Ah := pyMul (h : ℚ) sc with hAh_def
    have hflw1 : ((⌊Aw⌋ : ℤ) : ℚ) ≤ Aw := Int.floor_le _
    have hflw2 : Aw < ((⌊Aw⌋ : ℤ) : ℚ) + 1 := Int.lt_floor_add_one _
    have hflh1 : ((⌊Ah⌋ : ℤ) : ℚ) ≤ Ah := Int.floor_le _
    have hflh2 : Ah < ((⌊Ah⌋ : ℤ) : ℚ) + 1 := Int.lt_floor_add_one _
    -- the rounded products are close to the exact ones
    have herr_w : |Aw - (w : ℚ) * sc| ≤ ((w : ℚ) * sc) / 2 ^ 53 := roundD_err _ hWsc_pos
    have herr_h : |Ah - (h : ℚ) * sc| ≤ ((h : ℚ) * sc) / 2 ^ 53 := roundD_err _ hHsc_pos
    have hwh_sc : (w : ℚ) * h * sc ≤ 1500 * 2 ^ 40 * (1 + u) := by
      have s1 : (w : ℚ) * h * sc = h * ((w : ℚ) * sc) := by ring
      have step1 : (h : ℚ) * ((w : ℚ) * sc) ≤ h * (1500 * (1 + u)) :=
        mul_le_mul_of_nonneg_left hWsc_up hhQ.le
      have step2 : (h : ℚ) * (1500 * (1 + u)) ≤ 2 ^ 40 * (1500 * (1 + u)) :=
        mul_le_mul_of_nonneg_right hhBQ (by positivity)
      have s2 : (2 ^ 40 : ℚ) * (1500 * (1 + u)) = 1500 * 2 ^ 40 * (1 + u) := by ring
      rw [s1]
      linarith
    have hmid : |Aw * h - Ah * w| < 1 := by
      have e1 : Aw * h - Ah * w = (Aw - (w : ℚ) * sc) * h - (Ah - (h : ℚ) * sc) * w := by
        ring
      rw [e1]
      have t1 := abs_sub (((Aw - (w : ℚ) * sc) * h)) (((Ah - (h : ℚ) * sc) * w))
      have t2 : |(Aw - (w : ℚ) * sc) * h| = |Aw - (w : ℚ) * sc| * h := by
        rw [abs_mul, abs_of_pos hhQ]
      have t3 : |(Ah - (h : ℚ) * sc) * w| = |Ah - (h : ℚ) * sc| * w := by
        rw [abs_mul, abs_of_pos hwQ]
      have t4 : |Aw - (w : ℚ) * sc| * h ≤ ((w : ℚ) * sc / 2 ^ 53) * h :=
        mul_le_mul_of_nonneg_right herr_w hhQ.le
      have t5 : |Ah - (h : ℚ) * sc| * w ≤ ((h : ℚ) * sc / 2 ^ 53) * w :=
        mul_le_mul_of_nonneg_right herr_h hwQ.le
      have t6 : ((w : ℚ) * sc / 2 ^ 53) * h + ((h : ℚ) * sc / 2 ^ 53) * w =
          2 * ((w : ℚ) * h * sc) / 2 ^ 53 := by ring
      have t7 : 2 * ((w : ℚ) * h * sc) / 2 ^ 53 ≤
          2 * (1500 * 2 ^ 40 * (1 + u)) / 2 ^ 53 := by
        have h253 : (0 : ℚ) < 2 ^ 53 := by positivity
        exact (div_le_div_iff_of_pos_right h253).mpr (by linarith)
      have t8 : 2 * ((1500 : ℚ) * 2 ^ 40 * (1 + u)) / 2 ^ 53 < 1 := by
        rw [hu_def]
        norm_num
      calc |(Aw - (w : ℚ) * sc) * h - (Ah - (h : ℚ) * sc) * w|
          ≤ |(Aw - (w : ℚ) * sc) * h| + |(Ah - (h : ℚ) * sc) * w| := t1
        _ = |Aw - (w : ℚ) * sc| * h + |Ah - (h : ℚ) * sc| * w := by rw [t2, t3]
        _ ≤ ((w : ℚ) * sc / 2 ^ 53) * h + ((h : ℚ) * sc / 2 ^ 53) * w := by linarith
        _ = 2 * ((w : ℚ) * h * sc) / 2 ^ 53 := t6
        _ ≤ 2 * (1500 * 2 ^ 40 * (1 + u)) / 2 ^ 53 := t7
        _ < 1 := t8
    have hdecomp : ((⌊Aw⌋ : ℤ) : ℚ) * h - ((⌊Ah⌋ : ℤ) : ℚ) * w =
        (((⌊Aw⌋ : ℤ) : ℚ) - Aw) * h + (Aw * h - Ah * w) + (Ah - ((⌊Ah⌋ : ℤ) : ℚ)) * w := by
      ring
    rw [hdecomp]
    have b1 : |(((⌊Aw⌋ : ℤ) : ℚ) - Aw) * h| ≤ 1 * h := by
      rw [abs_mul, abs_of_pos hhQ]
      have hb : |(((⌊Aw⌋ : ℤ) : ℚ) - Aw)| ≤ 1 := by
        rw [abs_le]
        constructor <;> linarith
      exact mul_le_mul_of_nonneg_right hb hhQ.le
    have b3 : |(Ah - ((⌊Ah⌋ : ℤ) : ℚ)) * w| ≤ 1 * w := by
      rw [abs_mul, abs_of_pos hwQ]
      have hb : |(Ah - ((⌊Ah⌋ : ℤ) : ℚ))| ≤ 1 := by
        rw [abs_le]
        constructor <;> linarith
      exact mul_le_mul_of_nonneg_right hb hwQ.le
    have habs2 := abs_add ((((⌊Aw⌋ : ℤ) : ℚ) - Aw) * h + (Aw * h - Ah * w))
      ((Ah - ((⌊Ah⌋ : ℤ) : ℚ)) * w)
    have habs3 := abs_add ((((⌊Aw⌋ : ℤ) : ℚ) - Aw) * h) (Aw * h - Ah * w)
    linarith

theorem resizeDims_swap (w h : Nat) :
    resizeDims h w = ((resizeDims w h).2, (resizeDims w h).1) := by
  rw [resizeDims, resizeDims]
  by_cases hc : max_dimension < w ∨ max_dimension < h
  · rw [if_pos hc.symm, if_pos hc, min_comm (pyDiv 1500 (h : ℚ)) (pyDiv 1500 (w : ℚ))]
  · rw [if_neg (fun hor => hc hor.symm), if_neg hc]

/-- C8 (amended): images with both dimensions at most 1500 px are not
resized; for a decodable image with a dimension above 1500 px (and
dimensions below `2^40`, far beyond any decodable image) the larger
output dimension equals 1500 up to the one-pixel shortfall that
binary64 rounding can introduce (it lies in `{1499, 1500}`), and the
aspect ratio is preserved within rounding
(`|p₁·h − p₂·w| < w + h + 1`). -/
theorem resize_dimension_bounds :
    (∀ w h : Nat, w ≤ max_dimension → h ≤ max_dimension → resizeDims w h = (w, h)) ∧
    (∀ w h : Nat, 0 < w → 0 < h → w ≤ 2 ^ 40 → h ≤ 2 ^ 40 →
      (max_dimension < w ∨ max_dimension < h) →
      (1499 ≤ max (resizeDims w h).1 (resizeDims w h).2 ∧
        max (resizeDims w h).1 (resizeDims w h).2 ≤ 1500) ∧
      |((resizeDims w h).1 : ℚ) * h - ((resizeDims w h).2 : ℚ) * w| < (w : ℚ) + h + 1) := by
  constructor
  · intro w h hw hh
    rw [resizeDims, if_neg (by push_neg; exact ⟨hw, hh⟩)]
  · intro w h hw hh hwB hhB hbig
    by_cases hwh : h ≤ w
    · have hbw : max_dimension < w := by
        rcases hbig with h1 | h1
        · exact h1
        · rw [max_dimension] at h1 ⊢; omega
      obtain ⟨⟨c1, c2⟩, c3, c4⟩ := resize_core w h hw hh hwh hbw hwB hhB
      refine ⟨⟨?_, ?_⟩, c4⟩
      · omega
      · omega
    · have hwh' : w ≤ h := by omega
      have hbh : max_dimension < h := by
        rcases hbig with h1 | h1
        · rw [max_dimension] at h1 ⊢; omega
        · exact h1
      obtain ⟨⟨c1, c2⟩, c3, c4⟩ := resize_core h w hh hw hwh' hbh hhB hwB
      rw [resizeDims_swap w h] at c1 c2 c3 c4
      dsimp only at c1 c2 c3 c4
      refine ⟨⟨?_, ?_⟩, ?_⟩
      · omega
      · omega
      · rw [abs_sub_comm]
        linarith

unseal Rat.add Rat.mul Rat.inv Rat.sub in
/-- Witness for `resize_dimension_bounds`: an 800×600 image is left
alone; a 3000×2000 image resizes to (1500, 1000), within all bounds. -/
theorem resize_dimension_bounds_witness :
    resizeDims 800 600 = (800, 600) ∧
    ((1499 ≤ max (resizeDims 3000 2000).1 (resizeDims 3000 2000).2 ∧
        max (resizeDims 3000 2000).1 (resizeDims 3000 2000).2 ≤ 1500) ∧
      |((resizeDims 3000 2000).1 : ℚ) * ((2000 : ℕ) : ℚ) -
          ((resizeDims 3000 2000).2 : ℚ) * ((3000 : ℕ) : ℚ)| <
        ((3000 : ℕ) : ℚ) + ((2000 : ℕ) : ℚ) + 1) :=
  ⟨resize_dimension_bounds.1 800 600 (by decide) (by decide),
    resize_dimension_bounds.2 3000 2000 (by decide) (by decide) (by decide) (by decide)
      (Or.inl (by decide))⟩

unseal Rat.add Rat.mul Rat.inv Rat.sub in
/-- C8 counterexample: a 2147×1000 image resizes to (1499, 698) — the
larger output dimension is 1499, not exactly 1500, because
`min(1500/2147, 1500/1000)` and the subsequent multiplication are
binary64 operations and `int(2147 * (1500/2147))` truncates
`1499.9999999999998` to 1499. -/
theorem resize_exact_1500_counterexample :
    (1500 < 2147) ∧ resizeDims 2147 1000 = (1499, 698) ∧
    max (resizeDims 2147 1000).1 (resizeDims 2147 1000).2 ≠ 1500 :=
  ⟨by decide, by decide, by decide⟩
